import Mathlib

/-!
Shallow embedding of the llmcli conversational agent core
(src/cli/src/main.rs, config.rs, executor.rs, llm_client.rs).

Modelling conventions:
- JSON values (serde_json::Value) are the inductive `Json`; numbers are
  modelled as integers (no claim touches numeric payloads).
- External collaborators are parameters: the JSON text parser
  (serde_json::from_str) is a `String → Option Json` argument, the regular
  expression engine (regex::Regex::is_match, patterns pre-validated at
  configuration load) is a `String → String → Bool` argument receiving the
  pattern text unchanged, and the command runner (process spawning in
  executor.rs) is a `String → String → List (String × String) → Except String String`
  argument (shell, command, environment bindings).
- Abnormal termination is explicit: Rust panics (Option::expect, Vec index
  out of bounds) and errors propagated out of main via the question-mark
  operator are constructors of `AbnormalExit` / `Fatal`, so the accumulator
  and the conversation loop are total Lean functions returning `Except`.
- The transport is modelled as the list of event streams it would deliver,
  one `List (Except String StreamEvent)` per round, mirroring the items of
  the stream built in llm_client.rs::stream_completion.
-/

/-- JSON value, mirroring serde_json::Value (numbers as integers). -/
inductive Json where
  | null
  | bool (b : Bool)
  | num (n : Int)
  | str (s : String)
  | arr (elems : List Json)
  | obj (fields : List (String × Json))
deriving Repr

/-- Equality test on JSON values. -/
def Json.beq : Json → Json → Bool
  | .null, .null => true
  | .bool a, .bool b => a == b
  | .num a, .num b => a == b
  | .str a, .str b => a == b
  | .arr xs, .arr ys =>
    let rec beqList : List Json → List Json → Bool
      | [], [] => true
      | x :: xs, y :: ys => Json.beq x y && beqList xs ys
      | _, _ => false
    beqList xs ys
  | .obj fs, .obj gs =>
    let rec beqFields : List (String × Json) → List (String × Json) → Bool
      | [], [] => true
      | f :: fs, g :: gs => f.1 == g.1 && Json.beq f.2 g.2 && beqFields fs gs
      | _, _ => false
    beqFields fs gs
  | _, _ => false

/-- Mirrors serde_json::Value::as_object (the field list of an object). -/
def Json.asObject : Json → Option (List (String × Json))
  | .obj fields => some fields
  | _ => none

/-- Mirrors serde_json::Value::as_str. -/
def Json.asStr : Json → Option String
  | .str s => some s
  | _ => none

/-- Reassembled tool call function part (llm_client.rs ToolCallFunction). -/
structure ToolCallFunction where
  name : String
  arguments : Json
deriving Repr

/-- Reassembled tool call (llm_client.rs ToolCall). -/
structure ToolCall where
  id : String
  tool_type : String
  function : ToolCallFunction
deriving Repr

/-- Streamed tool call fragment function part (llm_client.rs ToolCallFunctionChunk). -/
structure ToolCallFunctionChunk where
  name : Option String
  arguments : String
deriving Repr

/-- Streamed tool call fragment (llm_client.rs ToolCallChunk). -/
structure ToolCallChunk where
  index : Nat
  id : Option String
  function : ToolCallFunctionChunk
deriving Repr

/-- Streamed delta (llm_client.rs Delta). -/
structure Delta where
  content : Option String
  tool_calls : Option (List ToolCallChunk)
deriving Repr

/-- Streamed choice (llm_client.rs StreamChoice). -/
structure StreamChoice where
  delta : Option Delta
deriving Repr

/-- One data frame (llm_client.rs StreamChunk). -/
structure StreamChunk where
  choices : List StreamChoice
deriving Repr

/-- Stream event (llm_client.rs StreamEvent): a data frame or the DONE sentinel. -/
inductive StreamEvent where
  | chunk (c : StreamChunk)
  | done
deriving Repr

/-- Abnormal termination of the accumulation phase: a Rust panic
(Option::expect on a missing function name, Vec indexing out of bounds on a
continuation fragment for an uninitialized slot) or a stream item error
propagated by the question-mark operator in the event loop of main.rs. -/
inductive AbnormalExit where
  | panicExpect (msg : String)
  | panicIndexOOB (idx len : Nat)
  | fatalStream (msg : String)
deriving Repr, DecidableEq

/-- Mutable accumulation state of one streaming round
(main.rs lines 92 to 95: accumulated_text, tool_calls, tool_arguments_jsons). -/
structure AccState where
  accumulated_text : Option String
  tool_calls : List ToolCall
  tool_arguments_jsons : List String
deriving Repr

/-- Initial accumulator state (main.rs line 92: Some(String::new())). -/
def initAccState : AccState :=
  { accumulated_text := some "", tool_calls := [], tool_arguments_jsons := [] }

/-- Processing of one tool call fragment (main.rs lines 117 to 136).
A fragment with an id pushes a new ToolCall (name extracted by expect, a
panic when absent) and pushes its argument text as a new slot; a fragment
without an id appends its argument text to the slot at its index, a panic
when that index is out of bounds. -/
def stepToolCallChunk (s : AccState) (call : ToolCallChunk) : Except AbnormalExit AccState :=
  match call.id with
  | some cid =>
    match call.function.name with
    | some nm =>
      .ok { s with
        tool_calls := s.tool_calls ++
          [{ id := cid, tool_type := "function",
             function := { name := nm, arguments := Json.null } }],
        tool_arguments_jsons := s.tool_arguments_jsons ++ [call.function.arguments] }
    | none => .error (.panicExpect ("Tool call with id must have a name"))
  | none =>
    if h : call.index < s.tool_arguments_jsons.length then
      .ok { s with
        tool_arguments_jsons := s.tool_arguments_jsons.set call.index
          (s.tool_arguments_jsons.get ⟨call.index, h⟩ ++ call.function.arguments) }
    else
      .error (.panicIndexOOB call.index s.tool_arguments_jsons.length)

/-- Processing of a list of tool call fragments in arrival order
(the for_each over delta.tool_calls in main.rs line 117). -/
def stepCalls : AccState → List ToolCallChunk → Except AbnormalExit AccState
  | s, [] => .ok s
  | s, c :: cs =>
    match stepToolCallChunk s c with
    | .ok s2 => stepCalls s2 cs
    | .error e => .error e

/-- Processing of one delta (main.rs lines 103 to 137): content text is
appended to accumulated_text (initialized to the empty string when absent),
then tool call fragments are processed. -/
def stepDelta (s : AccState) (d : Delta) : Except AbnormalExit AccState :=
  let s1 :=
    match d.content with
    | some c =>
      { s with accumulated_text := some (s.accumulated_text.getD "" ++ c) }
    | none => s
  match d.tool_calls with
  | some calls => stepCalls s1 calls
  | none => .ok s1

/-- Processing of the choices of one data frame (main.rs line 102). -/
def stepChoices : AccState → List StreamChoice → Except AbnormalExit AccState
  | s, [] => .ok s
  | s, ch :: chs =>
    match ch.delta with
    | none => stepChoices s chs
    | some d =>
      match stepDelta s d with
      | .ok s2 => stepChoices s2 chs
      | .error e => .error e

/-- The event loop of main.rs lines 97 to 146: each stream item is
unwrapped by the question-mark operator (an error item aborts the round),
a chunk is folded into the state, the DONE sentinel breaks out. -/
def runStream : List (Except String StreamEvent) → AccState → Except AbnormalExit AccState
  | [], s => .ok s
  | .error e :: _, _ => .error (.fatalStream e)
  | .ok (.chunk c) :: rest, s =>
    match stepChoices s c.choices with
    | .ok s2 => runStream rest s2
    | .error e => .error e
  | .ok .done :: _, s => .ok s

/-- Finalization of accumulated argument text (main.rs lines 149 to 157):
the i-th accumulated string is parsed as JSON; on success the i-th tool
call receives the parsed value, on failure the call keeps Null arguments
and the failure is only logged. -/
def finalizeToolCalls (parse : String → Option Json) :
    List ToolCall → List String → List ToolCall
  | [], _ => []
  | c :: cs, [] => c :: cs
  | c :: cs, j :: js =>
    (match parse j with
     | some v => { c with function := { c.function with arguments := v } }
     | none => c) :: finalizeToolCalls parse cs js

/-- Tool parameter property (config.rs Property). -/
structure Property where
  prop_type : String
  description : String
  pattern : Option String
deriving Repr

/-- Tool parameter schema (config.rs JsonSchema). The properties map is a
lookup-only association list (the source uses a HashMap only through get). -/
inductive JsonSchema where
  | object (properties : List (String × Property)) (required : List String)
deriving Repr

/-- Registry tool definition (config.rs Tool). -/
structure Tool where
  name : String
  description : String
  input_schema : List JsonSchema
  command : String
  shell : Option String
deriving Repr

/-- Lookup in the properties map (HashMap::get on the property name). -/
def findProp (props : List (String × Property)) (nm : String) : Option Property :=
  (props.find? (fun p => p.1 == nm)).map (fun p => p.2)

/-- Membership of a key in a JSON object (serde_json Map::contains_key). -/
def hasKey (obj : List (String × Json)) (k : String) : Bool :=
  obj.any (fun kv => kv.1 == k)

/-- Required field check of Tool::validate_input (config.rs lines 82 to 86):
bail on the first declared required field missing from the input object. -/
def checkRequired (obj : List (String × Json)) : List String → Except String Unit
  | [] => .ok ()
  | r :: rs =>
    if hasKey obj r then checkRequired obj rs
    else .error ("Missing required field: " ++ r)

/-- Per-property validation of Tool::validate_input (config.rs lines 89 to
100): for every input entry whose declared property has a pattern, the value
must be a string and the regular expression engine must find a match for the
pattern, passed unchanged, in the string (search semantics of
Regex::is_match); the source message uses a contraction, modelled here
without one. -/
def checkProps (rmatch : String → String → Bool) (props : List (String × Property)) :
    List (String × Json) → Except String Unit
  | [] => .ok ()
  | (nm, v) :: rest =>
    match findProp props nm with
    | some prop =>
      match prop.pattern with
      | some p =>
        match v.asStr with
        | some s =>
          if rmatch p s then checkProps rmatch props rest
          else .error ("Property " ++ nm ++ " does not match pattern " ++ p)
        | none => .error ("Property " ++ nm ++ " must be a string")
      | none => checkProps rmatch props rest
    | none => checkProps rmatch props rest

/-- Validation against one schema entry (body of the loop in
Tool::validate_input, config.rs lines 76 to 102). -/
def validateSchema (rmatch : String → String → Bool) (input : Json) :
    JsonSchema → Except String Unit
  | .object properties required =>
    match input.asObject with
    | none => .error ("Input must be an object")
    | some obj =>
      match checkRequired obj required with
      | .ok _ => checkProps rmatch properties obj
      | .error e => .error e

/-- Loop of Tool::validate_input over the input_schema list. -/
def validateSchemas (rmatch : String → String → Bool) (input : Json) :
    List JsonSchema → Except String Unit
  | [] => .ok ()
  | sch :: rest =>
    match validateSchema rmatch input sch with
    | .ok _ => validateSchemas rmatch input rest
    | .error e => .error e

/-- Tool::validate_input (config.rs lines 74 to 105), relative to the
regular expression engine rmatch. -/
def Tool.validate_input (rmatch : String → String → Bool) (tool : Tool) (input : Json) :
    Except String Unit :=
  validateSchemas rmatch input tool.input_schema

/-- Tool::get_shell (config.rs lines 70 to 72). -/
def Tool.get_shell (tool : Tool) (dflt : String) : String :=
  tool.shell.getD dflt

/-- Tool::build_command (config.rs lines 107 to 110): validate, then return
the literal command template. -/
def Tool.build_command (rmatch : String → String → Bool) (tool : Tool) (input : Json) :
    Except String String :=
  match Tool.validate_input rmatch tool input with
  | .ok _ => .ok tool.command
  | .error e => .error e

/-- String form of a JSON value used for environment bindings
(serde_json::Value::to_string in config.rs line 120), with the string case
handled separately by the caller. -/
def Json.render : Json → String
  | .null => "null"
  | .bool b => if b then "true" else "false"
  | .num n => toString n
  | .str s => "\x22" ++ s ++ "\x22"
  | .arr elems =>
    "[" ++ String.intercalate "," (elems.attach.map (fun e => Json.render e.1)) ++ "]"
  | .obj fields =>
    "\x7b" ++
      String.intercalate ","
        (fields.attach.map (fun f => "\x22" ++ f.1.1 ++ "\x22:" ++ Json.render f.1.2)) ++
      "\x7d"
decreasing_by
  · have h := List.sizeOf_lt_of_mem e.2
    simp at h ⊢
    omega
  · have h1 := List.sizeOf_lt_of_mem f.2
    have h2 : sizeOf f.1.2 < sizeOf f.1 := by
      obtain ⟨⟨a, b⟩, hf⟩ := f
      simp
    simp at h1 ⊢
    omega

/-- Tool::build_env_vars (config.rs lines 112 to 127): one binding
param_key per top-level input property; string values verbatim, other
values in their JSON text form. -/
def Tool.build_env_vars (_tool : Tool) (input : Json) : List (String × String) :=
  match input.asObject with
  | some obj =>
    obj.map (fun kv =>
      ("param_" ++ kv.1,
       match kv.2 with
       | .str s => s
       | v => Json.render v))
  | none => []

/-- Executor::execute_tool (executor.rs lines 18 to 40), relative to the
regular expression engine and the command runner (shell, command,
environment bindings); build_command validates first, an unsupported shell
name is an error, and only the three supported shells reach the runner. -/
def Executor.execute_tool (rmatch : String → String → Bool)
    (runner : String → String → List (String × String) → Except String String)
    (tool : Tool) (input : Json) (default_shell : String) : Except String String :=
  match Tool.build_command rmatch tool input with
  | .error e => .error e
  | .ok command =>
    let env_vars := Tool.build_env_vars tool input
    let shell := Tool.get_shell tool default_shell
    if shell == "bash" then runner "bash" command env_vars
    else if shell == "sh" then runner "sh" command env_vars
    else if shell == "zsh" then runner "zsh" command env_vars
    else .error ("Unsupported shell: " ++ shell)

/-- Conversation message (llm_client.rs Message). -/
inductive Message where
  | user (content : String)
  | assistant (content : Option String) (tool_calls : Option (List ToolCall))
  | tool (tool_call_id : String) (content : String)
deriving Repr

/-- Transcript record (main.rs ConversationLog entries; timestamps are wall
clock noise and are not modelled, only record kind, payload and order). -/
inductive TranscriptEntry where
  | message (m : Message)
  | toolCall (c : ToolCall)
  | toolResult (tool_call_id : String) (tool_name : String) (output : String)
deriving Repr

/-- Fatal end of the conversation: an abnormal accumulation exit, the
Tool-not-found error propagated by the question-mark operator in main.rs
line 188, or the modelling artifact of the transport list running out while
the loop still wants a round. -/
inductive Fatal where
  | abnormal (e : AbnormalExit)
  | toolNotFound (nm : String)
  | noMoreRounds
deriving Repr

/-- Static context of a run: the loaded configuration (tools and default
shell) and the external collaborators (JSON parser, regular expression
engine, command runner). -/
structure Ctx where
  tools : List Tool
  shell : String
  parse : String → Option Json
  rmatch : String → String → Bool
  runner : String → String → List (String × String) → Except String String

/-- Registry lookup of main.rs lines 184 to 187. -/
def findTool (tools : List Tool) (nm : String) : Option Tool :=
  tools.find? (fun t => t.name == nm)

/-- The dispatch loop of main.rs lines 179 to 227: for each finalized call,
look the tool up (a missing tool is fatal via the question-mark operator),
execute it, log the result record, and append one Tool message whose content
is the output on success or the error text prefixed with Error: on failure.
Returns the extended history, the extended transcript, and the fatal error
if one aborted the loop. -/
def dispatchCalls (ctx : Ctx) :
    List ToolCall → List Message → List TranscriptEntry →
    List Message × List TranscriptEntry × Option Fatal
  | [], msgs, log => (msgs, log, none)
  | c :: cs, msgs, log =>
    match findTool ctx.tools c.function.name with
    | none => (msgs, log, some (.toolNotFound c.function.name))
    | some tool =>
      match Executor.execute_tool ctx.rmatch ctx.runner tool c.function.arguments ctx.shell with
      | .ok output =>
        dispatchCalls ctx cs
          (msgs ++ [.tool c.id output])
          (log ++ [.toolResult c.id c.function.name output])
      | .error e =>
        dispatchCalls ctx cs
          (msgs ++ [.tool c.id ("Error: " ++ e)])
          (log ++ [.toolResult c.id c.function.name ("Error: " ++ e)])

/-- Result of one round of the conversation loop. -/
structure RoundOut where
  messages : List Message
  log : List TranscriptEntry
  calls : List ToolCall
  fatal : Option Fatal
deriving Repr

/-- One round of the loop body (main.rs lines 77 to 240): run the stream
accumulator, finalize argument text, append exactly one Assistant message
(content is the accumulated text option, tool_calls present only when
non-empty) and log it, dispatch the calls, and only when no fatal error
occurred append one tool_call transcript record per call (the loop of
main.rs lines 232 to 234, which runs after all results were logged). -/
def runRound (ctx : Ctx) (msgs : List Message) (log : List TranscriptEntry)
    (events : List (Except String StreamEvent)) : RoundOut :=
  match runStream events initAccState with
  | .error e => { messages := msgs, log := log, calls := [], fatal := some (.abnormal e) }
  | .ok s =>
    let calls := finalizeToolCalls ctx.parse s.tool_calls s.tool_arguments_jsons
    let amsg := Message.assistant s.accumulated_text
      (if calls.isEmpty then none else some calls)
    let msgs1 := msgs ++ [amsg]
    let log1 := log ++ [.message amsg]
    match dispatchCalls ctx calls msgs1 log1 with
    | (msgs2, log2, some f) => { messages := msgs2, log := log2, calls := calls, fatal := some f }
    | (msgs2, log2, none) =>
      { messages := msgs2,
        log := log2 ++ calls.map TranscriptEntry.toolCall,
        calls := calls,
        fatal := none }

/-- Final outcome of the conversation loop: history, transcript, the fatal
error if any, and the number of rounds for which a request was sent. -/
structure LoopFinal where
  messages : List Message
  log : List TranscriptEntry
  fatal : Option Fatal
  roundsUsed : Nat
deriving Repr

/-- The conversation loop of main.rs lines 77 to 241, driven by the list of
event streams the transport delivers for successive requests: each
iteration consumes one stream, a fatal error aborts, and a round that
finalized zero tool calls ends the loop (main.rs lines 236 to 240). -/
def runLoop (ctx : Ctx) :
    List (List (Except String StreamEvent)) → List Message → List TranscriptEntry → LoopFinal
  | [], msgs, log => { messages := msgs, log := log, fatal := some .noMoreRounds, roundsUsed := 0 }
  | evs :: rest, msgs, log =>
    let r := runRound ctx msgs log evs
    match r.fatal with
    | some f => { messages := r.messages, log := r.log, fatal := some f, roundsUsed := 1 }
    | none =>
      if r.calls.isEmpty then
        { messages := r.messages, log := r.log, fatal := none, roundsUsed := 1 }
      else
        let fin := runLoop ctx rest r.messages r.log
        { messages := fin.messages, log := fin.log, fatal := fin.fatal,
          roundsUsed := fin.roundsUsed + 1 }

/-- Whole run of main.rs: the initial User message is appended to history
and logged (main.rs lines 63 to 67), then the conversation loop runs. -/
def runMain (ctx : Ctx) (prompt : String)
    (rounds : List (List (Except String StreamEvent))) : LoopFinal :=
  runLoop ctx rounds [.user prompt] [.message (.user prompt)]

/-- Test for the Assistant role. -/
def isAssistant : Message → Bool
  | .assistant _ _ => true
  | _ => false

/-- Test for the Tool role. -/
def isToolMsg : Message → Bool
  | .tool _ _ => true
  | _ => false

/-- Tool calls carried by a message (empty unless an Assistant message with
a present tool_calls list). -/
def assistantCalls : Message → List ToolCall
  | .assistant _ (some cs) => cs
  | _ => []

/-- Test for a Tool message with the given tool_call_id. -/
def isToolMsgFor (cid : String) : Message → Bool
  | .tool id _ => id == cid
  | _ => false

/-- Number of Tool messages with the given tool_call_id. -/
def countToolMsgs (cid : String) (l : List Message) : Nat :=
  (l.filter (isToolMsgFor cid)).length

/-- The most recent Assistant message of a history, when one exists. -/
def lastAssistant : List Message → Option Message
  | [] => none
  | m :: rest =>
    match lastAssistant rest with
    | some a => some a
    | none => if isAssistant m then some m else none

/-- Identifiers of the tool calls carried by the most recent Assistant
message of a history. -/
def lastAssistantCallIds (l : List Message) : List String :=
  match lastAssistant l with
  | some m => (assistantCalls m).map (fun c => c.id)
  | none => []

/-- All tool call identifiers carried by Assistant messages of a history. -/
def allCallIds (msgs : List Message) : List String :=
  msgs.flatMap (fun m => (assistantCalls m).map (fun c => c.id))

/-- The pairing invariant of the specification, stated over a message
history: every ToolCall of an Assistant message has exactly one later Tool
message with matching tool_call_id, and every Tool message references a
ToolCall of the most recent preceding Assistant message. -/
def GoodHistory (msgs : List Message) : Prop :=
  (∀ pre m post, msgs = pre ++ m :: post →
     ∀ c ∈ assistantCalls m, countToolMsgs c.id post = 1) ∧
  (∀ pre m post, msgs = pre ++ m :: post →
     ∀ cid ct, m = Message.tool cid ct → cid ∈ lastAssistantCallIds pre)

/-- Test for a tool_call transcript record with the given call identifier. -/
def entryIsCallFor (cid : String) : TranscriptEntry → Bool
  | .toolCall c => c.id == cid
  | _ => false

/-- Auxiliary scan: every tool_result record must be preceded by a
tool_call record with the same identifier. -/
def callsBeforeResultsAux : List TranscriptEntry → List TranscriptEntry → Bool
  | _, [] => true
  | seen, e :: rest =>
    match e with
    | .toolResult cid _ _ =>
      seen.any (entryIsCallFor cid) && callsBeforeResultsAux (seen ++ [e]) rest
    | _ => callsBeforeResultsAux (seen ++ [e]) rest

/-- Transcript property from the specification: each tool call record
appears before the corresponding tool result record. -/
def callLoggedBeforeResult (log : List TranscriptEntry) : Bool :=
  callsBeforeResultsAux [] log

/-- Concrete registry tool used by the concrete runs below: one object
schema with no properties and no required fields. -/
def cexEchoTool : Tool :=
  { name := "echo", description := "Echo a message",
    input_schema := [JsonSchema.object [] []],
    command := "echo hi", shell := none }

/-- Concrete JSON parser for the concrete runs: parses exactly the empty
object text. -/
def cexParse (s : String) : Option Json :=
  if s == "\x7b\x7d" then some (Json.obj []) else none

/-- Concrete run context: the echo tool, bash default shell, the concrete
parser, an always-matching pattern engine, and a runner that returns hi. -/
def cexCtx : Ctx :=
  { tools := [cexEchoTool], shell := "bash", parse := cexParse,
    rmatch := fun _ _ => true, runner := fun _ _ _ => .ok "hi" }

/-- One data frame carrying a complete tool call fragment for slot 0 with
identifier call_1 and the given function name. -/
def cexCallFrame (nm : String) : StreamChunk :=
  { choices := [{ delta := some (
      { content := none,
        tool_calls := some [({ index := 0
                             , id := some "call_1"
                             , function := { name := some nm, arguments := "\x7b\x7d" } })] }) }] }

/-- Round events: one tool call then the DONE sentinel. -/
def cexRoundWithCall (nm : String) : List (Except String StreamEvent) :=
  [Except.ok (StreamEvent.chunk (cexCallFrame nm)), Except.ok StreamEvent.done]

/-- Round events: only the DONE sentinel. -/
def cexEmptyRound : List (Except String StreamEvent) := [Except.ok StreamEvent.done]

/-- A complete two-round run: one echo call, then a round with no calls. -/
def cexGoodRun : LoopFinal := runMain cexCtx "hi" [cexRoundWithCall "echo", cexEmptyRound]

/-- A run whose single round finalizes a call naming an unregistered tool. -/
def cexBadRun : LoopFinal := runMain cexCtx "hi" [cexRoundWithCall "mystery"]

/-- The finalized call of the unknown-tool run. -/
def cexMysteryCall : ToolCall :=
  { id := "call_1", tool_type := "function",
    function := { name := "mystery", arguments := Json.obj [] } }

/-- Tool messages produced by dispatching the given calls with the given
outputs, in order. -/
def toolMsgsFor (calls : List ToolCall) (outs : List String) : List Message :=
  (calls.zip outs).map (fun p => Message.tool p.1.id p.2)

/-- Tool result transcript records produced by dispatching the given calls
with the given outputs, in order. -/
def resultEntriesFor (calls : List ToolCall) (outs : List String) : List TranscriptEntry :=
  (calls.zip outs).map (fun p => TranscriptEntry.toolResult p.1.id p.1.function.name p.2)

/-- The mystery call before argument finalization (Null arguments). -/
def cexMysteryCallRaw : ToolCall :=
  { id := "call_1", tool_type := "function",
    function := { name := "mystery", arguments := Json.null } }

/-- Accumulator state after the unknown-tool round, before finalization. -/
def cexMysteryState : AccState :=
  { accumulated_text := some "", tool_calls := [cexMysteryCallRaw],
    tool_arguments_jsons := ["\x7b\x7d"] }

/-- Round events whose first item is a malformed-frame error. -/
def cexMalformedRound : List (Except String StreamEvent) :=
  [Except.error "Failed to parse chunk: bad frame", Except.ok StreamEvent.done]

/-- Concatenation of argument fragments in arrival order (the successive
push_str calls of main.rs line 134). -/
def concatAll : List String → String
  | [] => ""
  | a :: rest => a ++ concatAll rest

/-- Finalization of one call from its accumulated argument text
(one iteration of main.rs lines 149 to 157). -/
def applyParse (parse : String → Option Json) (c : ToolCall) (j : String) : ToolCall :=
  match parse j with
  | some v => { c with function := { c.function with arguments := v } }
  | none => c

/-- Specification-side validity predicate for tool arguments against a
single object schema: the input is a JSON object, every declared required
property is present, and every present property with a declared pattern is
a string for which the regular expression engine finds a match of the
pattern applied as-is. -/
def ValidInput (rmatch : String → String → Bool) (props : List (String × Property))
    (req : List String) (input : Json) : Prop :=
  ∃ obj, input.asObject = some obj ∧
    (∀ r ∈ req, hasKey obj r = true) ∧
    (∀ kv ∈ obj, ∀ prop, findProp props kv.1 = some prop →
       ∀ p, prop.pattern = some p →
         ∃ str, kv.2.asStr = some str ∧ rmatch p str = true)

/-- URL property with a pattern, as in the specification test scenario. -/
def cexUrlProp : Property :=
  { prop_type := "string", description := "URL to fetch", pattern := some "^https?://.*" }

/-- Tool requiring a pattern-constrained url property. -/
def cexUrlTool : Tool :=
  { name := "fetch", description := "Fetch a URL",
    input_schema := [JsonSchema.object [("url", cexUrlProp)] ["url"]],
    command := "curl $param_url", shell := none }

/-- Concrete stand-in for the regular expression engine: matches when the
candidate starts with http. -/
def cexRmatch (_p s : String) : Bool := s.startsWith "http"

/-- Shape of the history appended by the conversation loop after the
initial User message: zero or more completed rounds, each one Assistant
message carrying a non-empty call list followed by one Tool message per
call, ending with one Assistant message carrying no calls. -/
inductive ConvTail : List Message → Prop where
  | last : ∀ t, ConvTail [Message.assistant t none]
  | step : ∀ t C outs rest, C ≠ [] → outs.length = C.length → ConvTail rest →
      ConvTail (Message.assistant t (some C) :: (toolMsgsFor C outs ++ rest))

lemma stepCalls_append {s s1 : AccState} {pre : List ToolCallChunk} (xs : List ToolCallChunk)
    (h : stepCalls s pre = .ok s1) :
    stepCalls s (pre ++ xs) = stepCalls s1 xs := by
  induction pre generalizing s with
  | nil =>
    simp only [stepCalls, Except.ok.injEq] at h
    simp [h]
  | cons c cs ih =>
    simp only [stepCalls] at h ⊢
    cases hc : stepToolCallChunk s c with
    | ok s2 =>
      rw [hc] at h
      simp only [List.cons_append]
      exact ih h
    | error e =>
      rw [hc] at h
      cases h

lemma runStream_append_ok {pre : List (Except String StreamEvent)} {s s1 : AccState}
    (xs : List (Except String StreamEvent))
    (hnd : ∀ x ∈ pre, x ≠ Except.ok StreamEvent.done)
    (h : runStream pre s = .ok s1) :
    runStream (pre ++ xs) s = runStream xs s1 := by
  induction pre generalizing s with
  | nil =>
    simp only [runStream, Except.ok.injEq] at h
    simp [h]
  | cons e es ih =>
    cases e with
    | error msg => simp [runStream] at h
    | ok ev =>
      cases ev with
      | chunk c =>
        simp only [runStream] at h ⊢
        cases hc : stepChoices s c.choices with
        | ok s2 =>
          rw [hc] at h
          exact ih (fun x hx => hnd x (List.mem_cons_of_mem _ hx)) h
        | error er =>
          rw [hc] at h
          cases h
      | done =>
        exact absurd rfl (hnd _ (List.mem_cons_self _ _))

lemma dispatchCalls_none_shape (ctx : Ctx) :
    ∀ (calls : List ToolCall) (msgs : List Message) (log : List TranscriptEntry)
      (msgs2 : List Message) (log2 : List TranscriptEntry),
      dispatchCalls ctx calls msgs log = (msgs2, log2, none) →
      ∃ outs : List String, outs.length = calls.length ∧
        msgs2 = msgs ++ toolMsgsFor calls outs ∧
        log2 = log ++ resultEntriesFor calls outs := by
  intro calls
  induction calls with
  | nil =>
    intro msgs log msgs2 log2 h
    simp only [dispatchCalls, Prod.mk.injEq] at h
    exact ⟨[], rfl, by simp [toolMsgsFor, h.1.symm], by simp [resultEntriesFor, h.2.1.symm]⟩
  | cons c cs ih =>
    intro msgs log msgs2 log2 h
    simp only [dispatchCalls] at h
    split at h
    · simp at h
    · split at h
      · obtain ⟨outs, hlen, hm, hl⟩ := ih _ _ _ _ h
        next output _ =>
        refine ⟨output :: outs, by simp [hlen], ?_, ?_⟩
        · simp [toolMsgsFor, hm]
        · simp [resultEntriesFor, hl]
      · obtain ⟨outs, hlen, hm, hl⟩ := ih _ _ _ _ h
        next e _ =>
        refine ⟨("Error: " ++ e) :: outs, by simp [hlen], ?_, ?_⟩
        · simp [toolMsgsFor, hm]
        · simp [resultEntriesFor, hl]

lemma dispatchCalls_unknown (ctx : Ctx) :
    ∀ (calls : List ToolCall) (msgs : List Message) (log : List TranscriptEntry),
      (∃ c ∈ calls, findTool ctx.tools c.function.name = none) →
      ∃ nm, (dispatchCalls ctx calls msgs log).2.2 = some (Fatal.toolNotFound nm) ∧
        findTool ctx.tools nm = none := by
  intro calls
  induction calls with
  | nil => intro msgs log h; simp at h
  | cons c cs ih =>
    intro msgs log h
    cases hf : findTool ctx.tools c.function.name with
    | none =>
      exact ⟨c.function.name, by simp [dispatchCalls, hf], hf⟩
    | some tool =>
      obtain ⟨c2, hc2, hn2⟩ := h
      rcases List.mem_cons.mp hc2 with rfl | hcs
      · rw [hf] at hn2; cases hn2
      · simp only [dispatchCalls, hf]
        cases hx : Executor.execute_tool ctx.rmatch ctx.runner tool c.function.arguments ctx.shell with
        | ok output => exact ih _ _ ⟨c2, hcs, hn2⟩
        | error e => exact ih _ _ ⟨c2, hcs, hn2⟩

lemma runRound_fatal_none_shape (ctx : Ctx) (msgs : List Message) (log : List TranscriptEntry)
    (evs : List (Except String StreamEvent))
    (h : (runRound ctx msgs log evs).fatal = none) :
    ∃ s calls outs amsg,
      runStream evs initAccState = .ok s ∧
      calls = finalizeToolCalls ctx.parse s.tool_calls s.tool_arguments_jsons ∧
      amsg = Message.assistant s.accumulated_text
        (if calls.isEmpty then none else some calls) ∧
      outs.length = calls.length ∧
      runRound ctx msgs log evs =
        { messages := msgs ++ amsg :: toolMsgsFor calls outs,
          log := log ++ TranscriptEntry.message amsg ::
            (resultEntriesFor calls outs ++ calls.map TranscriptEntry.toolCall),
          calls := calls, fatal := none } := by
  cases hs : runStream evs initAccState with
  | error e =>
    exfalso
    simp only [runRound, hs] at h
    cases h
  | ok s =>
    simp only [runRound, hs] at h ⊢
    rcases hd : dispatchCalls ctx
        (finalizeToolCalls ctx.parse s.tool_calls s.tool_arguments_jsons)
        (msgs ++ [Message.assistant s.accumulated_text
          (if (finalizeToolCalls ctx.parse s.tool_calls s.tool_arguments_jsons).isEmpty
           then none
           else some (finalizeToolCalls ctx.parse s.tool_calls s.tool_arguments_jsons))])
        (log ++ [TranscriptEntry.message (Message.assistant s.accumulated_text
          (if (finalizeToolCalls ctx.parse s.tool_calls s.tool_arguments_jsons).isEmpty
           then none
           else some (finalizeToolCalls ctx.parse s.tool_calls s.tool_arguments_jsons)))])
      with ⟨m2, l2, f⟩
    rw [hd] at h
    cases f with
    | some f0 => exact Option.noConfusion h
    | none =>
      obtain ⟨outs, hlen, hm, hl⟩ := dispatchCalls_none_shape ctx _ _ _ _ _ hd
      refine ⟨s, _, outs, _, rfl, rfl, rfl, hlen, ?_⟩
      dsimp only
      simp [RoundOut.mk.injEq, hm, hl]

lemma runRound_fatal_eq (ctx : Ctx) (msgs : List Message) (log : List TranscriptEntry)
    (evs : List (Except String StreamEvent)) (s : AccState)
    (hs : runStream evs initAccState = Except.ok s) :
    (runRound ctx msgs log evs).fatal =
      (dispatchCalls ctx (finalizeToolCalls ctx.parse s.tool_calls s.tool_arguments_jsons)
        (msgs ++ [Message.assistant s.accumulated_text
          (if (finalizeToolCalls ctx.parse s.tool_calls s.tool_arguments_jsons).isEmpty
           then none
           else some (finalizeToolCalls ctx.parse s.tool_calls s.tool_arguments_jsons))])
        (log ++ [TranscriptEntry.message (Message.assistant s.accumulated_text
          (if (finalizeToolCalls ctx.parse s.tool_calls s.tool_arguments_jsons).isEmpty
           then none
           else some (finalizeToolCalls ctx.parse s.tool_calls s.tool_arguments_jsons)))])).2.2 := by
  simp only [runRound, hs]
  rcases dispatchCalls ctx
      (finalizeToolCalls ctx.parse s.tool_calls s.tool_arguments_jsons)
      (msgs ++ [Message.assistant s.accumulated_text
        (if (finalizeToolCalls ctx.parse s.tool_calls s.tool_arguments_jsons).isEmpty
         then none
         else some (finalizeToolCalls ctx.parse s.tool_calls s.tool_arguments_jsons))])
      (log ++ [TranscriptEntry.message (Message.assistant s.accumulated_text
        (if (finalizeToolCalls ctx.parse s.tool_calls s.tool_arguments_jsons).isEmpty
         then none
         else some (finalizeToolCalls ctx.parse s.tool_calls s.tool_arguments_jsons)))])
    with ⟨m2, l2, f⟩
  cases f <;> rfl

/-- Claim C1: the specification mandates that a continuation fragment
referencing a slot never initialized by an identifier-carrying fragment
fails the round with an error result rather than crashing; the source
instead panics by indexing the argument vector out of bounds (main.rs line
134). This theorem evaluates the accumulator at the failing input, a
stream whose only fragment is a continuation for slot 0 with no slot
initialized: the outcome is the out-of-bounds panic, not a recoverable
error result. -/
theorem C1_uninitialized_slot_continuation_panics :
    runStream
      [Except.ok (StreamEvent.chunk { choices := [{ delta := some (
        { content := none,
          tool_calls := some [({ index := 0
                               , id := none
                               , function := { name := none, arguments := "x" } })] }) }] })]
      initAccState
    = Except.error (AbnormalExit.panicIndexOOB 0 0) := rfl

/-- Claim C2, counterexample: a finalized tool call naming the unregistered
tool mystery makes the conversation loop abort with a fatal Tool-not-found
error (main.rs line 188 propagates it with the question-mark operator), and
no Tool message is ever appended for it, refuting the claim that an unknown
tool name is converted into a Tool message and is never fatal. -/
theorem C2_unknown_tool_fatal_cex :
    cexBadRun.fatal = some (Fatal.toolNotFound "mystery") ∧
    cexBadRun.messages.any isToolMsg = false := ⟨rfl, rfl⟩

/-- Claim C2, amended: whenever the stream accumulator succeeds and some
finalized tool call has a function name that matches no tool in the
registry, the round aborts with a fatal Tool-not-found error naming an
unregistered tool; the conversation loop does not continue. -/
theorem C2_unknown_tool_aborts (ctx : Ctx) (msgs : List Message) (log : List TranscriptEntry)
    (evs : List (Except String StreamEvent)) (s : AccState)
    (hs : runStream evs initAccState = Except.ok s)
    (c : ToolCall)
    (hc : c ∈ finalizeToolCalls ctx.parse s.tool_calls s.tool_arguments_jsons)
    (hu : findTool ctx.tools c.function.name = none) :
    ∃ nm, (runRound ctx msgs log evs).fatal = some (Fatal.toolNotFound nm) ∧
      findTool ctx.tools nm = none := by
  rw [runRound_fatal_eq ctx msgs log evs s hs]
  exact dispatchCalls_unknown ctx _ _ _ ⟨c, hc, hu⟩

/-- Witness for C2_unknown_tool_aborts at the concrete unknown-tool run. -/
theorem C2_unknown_tool_aborts_witness :
    (runStream (cexRoundWithCall "mystery") initAccState = Except.ok cexMysteryState) ∧
    cexMysteryCall ∈ finalizeToolCalls cexCtx.parse
      cexMysteryState.tool_calls cexMysteryState.tool_arguments_jsons ∧
    findTool cexCtx.tools cexMysteryCall.function.name = none ∧
    ∃ nm, (runRound cexCtx [Message.user "hi"] [TranscriptEntry.message (Message.user "hi")]
        (cexRoundWithCall "mystery")).fatal = some (Fatal.toolNotFound nm) ∧
      findTool cexCtx.tools nm = none :=
  ⟨rfl, List.Mem.head _, rfl,
   C2_unknown_tool_aborts cexCtx [Message.user "hi"]
     [TranscriptEntry.message (Message.user "hi")] (cexRoundWithCall "mystery")
     cexMysteryState rfl cexMysteryCall (List.Mem.head _) rfl⟩

/-- Claim C5: the specification requires the Assistant message content to
be absent when the round produced no content fragments, distinguishable
from an empty string. The source initializes accumulated_text to
Some(String::new()) (main.rs line 92), so a round whose stream carries the
DONE sentinel and no content fragment still appends an Assistant message
whose content is the present empty string, never an absent one; the dead
None-handling branch (main.rs lines 106 to 109) and the unreachable
No-text-response log line (main.rs line 163) show the intended initial
value was None. This theorem evaluates the round at the failing input. -/
theorem C5_empty_round_content_present :
    (runRound cexCtx [] [] cexEmptyRound).messages
      = [Message.assistant (some "") none] ∧
    (runRound cexCtx [] [] cexEmptyRound).fatal = none := ⟨rfl, rfl⟩

/-- Claim C6, counterexample: in the concrete two-round run that dispatches
one echo call, the transcript records the tool result during the dispatch
loop (main.rs line 200) and the tool call record only after the loop
(main.rs lines 232 to 234), so the scan requiring every tool result record
to be preceded by a matching tool call record fails, refuting the claim
that a call is recorded before its result. -/
theorem C6_result_logged_before_call_cex :
    callLoggedBeforeResult cexGoodRun.log = false := rfl

/-- Claim C7, counterexample: a single malformed data frame is mapped by
the transport to an error item (llm_client.rs line 174) which the event
loop propagates with the question-mark operator (main.rs line 98); at the
concrete input the round aborts fatally with no Assistant message, refuting
the claim that only that frame is dropped and the round continues. -/
theorem C7_malformed_frame_fatal_cex :
    (runRound cexCtx [] [] cexMalformedRound).fatal
      = some (Fatal.abnormal (AbnormalExit.fatalStream "Failed to parse chunk: bad frame")) ∧
    (runRound cexCtx [] [] cexMalformedRound).messages = [] := ⟨rfl, rfl⟩

/-- Claim C7, amended: an error item produced for a malformed data frame
aborts the round and the conversation: after any error-free prefix of
frames, accumulation stops at the error item and the round ends with a
fatal stream error, appending nothing to the history. -/
theorem C7_error_frame_aborts (ctx : Ctx) (msgs : List Message) (log : List TranscriptEntry)
    (pre rest : List (Except String StreamEvent)) (e : String) (s1 : AccState)
    (hnd : ∀ x ∈ pre, x ≠ Except.ok StreamEvent.done)
    (hok : runStream pre initAccState = .ok s1) :
    (runRound ctx msgs log (pre ++ Except.error e :: rest)).fatal
      = some (Fatal.abnormal (AbnormalExit.fatalStream e)) ∧
    (runRound ctx msgs log (pre ++ Except.error e :: rest)).messages = msgs := by
  have h2 : runStream (pre ++ Except.error e :: rest) initAccState
      = .error (.fatalStream e) := by
    rw [runStream_append_ok (Except.error e :: rest) hnd hok]
    rfl
  exact ⟨by simp [runRound, h2], by simp [runRound, h2]⟩

/-- Witness for C7_error_frame_aborts with an empty error-free prefix. -/
theorem C7_error_frame_aborts_witness :
    ((∀ x ∈ ([] : List (Except String StreamEvent)), x ≠ Except.ok StreamEvent.done) ∧
     runStream [] initAccState = .ok initAccState) ∧
    (runRound cexCtx [] [] ([] ++ Except.error "boom" :: [Except.ok StreamEvent.done])).fatal
      = some (Fatal.abnormal (AbnormalExit.fatalStream "boom")) ∧
    (runRound cexCtx [] [] ([] ++ Except.error "boom" :: [Except.ok StreamEvent.done])).messages
      = [] :=
  ⟨⟨fun x hx => absurd hx (List.not_mem_nil x), rfl⟩,
   C7_error_frame_aborts cexCtx [] [] [] [Except.ok StreamEvent.done] "boom" initAccState
     (fun x hx => absurd hx (List.not_mem_nil x)) rfl⟩

/-- Claim C9: a round that finalizes zero tool calls and hits no fatal
error makes the conversation loop stop: the loop result is exactly the
round result with exactly one round used, independent of any further
transport behavior (no further request is consumed), and the round appended
only one Assistant message with absent tool_calls, so no Tool message is
appended for that round. -/
theorem C9_zero_calls_completes (ctx : Ctx) (msgs : List Message) (log : List TranscriptEntry)
    (evs : List (Except String StreamEvent))
    (rest : List (List (Except String StreamEvent)))
    (hf : (runRound ctx msgs log evs).fatal = none)
    (he : (runRound ctx msgs log evs).calls = []) :
    runLoop ctx (evs :: rest) msgs log =
      { messages := (runRound ctx msgs log evs).messages,
        log := (runRound ctx msgs log evs).log, fatal := none, roundsUsed := 1 } ∧
    ∃ t, (runRound ctx msgs log evs).messages = msgs ++ [Message.assistant t none] := by
  constructor
  · simp [runLoop, hf, he]
  · obtain ⟨s, calls, outs, amsg, hs, hcalls, hamsg, hlen, heq⟩ :=
      runRound_fatal_none_shape ctx msgs log evs hf
    have hce : calls = [] := by
      have := congrArg RoundOut.calls heq
      simp at this
      rw [← this, he]
    refine ⟨s.accumulated_text, ?_⟩
    rw [heq]
    subst hce
    simp [toolMsgsFor, hamsg]

/-- Witness for C9_zero_calls_completes at the concrete empty round. -/
theorem C9_zero_calls_completes_witness :
    ((runRound cexCtx [] [] cexEmptyRound).fatal = none ∧
     (runRound cexCtx [] [] cexEmptyRound).calls = []) ∧
    (runLoop cexCtx (cexEmptyRound :: [[]]) [] [] =
      { messages := (runRound cexCtx [] [] cexEmptyRound).messages,
        log := (runRound cexCtx [] [] cexEmptyRound).log, fatal := none, roundsUsed := 1 } ∧
     ∃ t, (runRound cexCtx [] [] cexEmptyRound).messages
       = [] ++ [Message.assistant t none]) :=
  ⟨⟨rfl, rfl⟩, C9_zero_calls_completes cexCtx [] [] cexEmptyRound [[]] rfl rfl⟩

/-- Claim C10: a tool call fragment carrying a call identifier but no
function name makes the accumulation step panic at the name extraction
(the expect of main.rs line 128) rather than return a value or a
recoverable error: after any successfully processed prefix of fragments,
the accumulation of the whole list ends in the expect panic. -/
theorem C10_id_without_name_panics (s s1 : AccState) (pre rest : List ToolCallChunk)
    (i : Nat) (cid a : String)
    (h : stepCalls s pre = Except.ok s1) :
    stepCalls s (pre ++
        ({ index := i, id := some cid,
           function := { name := none, arguments := a } } : ToolCallChunk) :: rest)
      = Except.error (AbnormalExit.panicExpect "Tool call with id must have a name") := by
  rw [stepCalls_append _ h]
  rfl

/-- Witness for C10_id_without_name_panics with an empty prefix. -/
theorem C10_id_without_name_panics_witness :
    stepCalls initAccState [] = Except.ok initAccState ∧
    stepCalls initAccState ([] ++
        ({ index := 0, id := some "call_1",
           function := { name := none, arguments := "" } } : ToolCallChunk) :: [])
      = Except.error (AbnormalExit.panicExpect "Tool call with id must have a name") :=
  ⟨rfl, C10_id_without_name_panics initAccState initAccState [] [] 0 "call_1" "" rfl⟩

/-- Claim C6, amended: in every round with no fatal error, the transcript
grows by exactly one message record for the Assistant message, then one
tool result record per dispatched call in dispatch order (written during
the dispatch loop), then one tool call record per call (written after the
loop, main.rs lines 232 to 234) — so results precede their calls, exactly
one record of each kind exists per logical event, and record order matches
the loop event order with the tool call records displaced to the end of
the round. -/
theorem C6_transcript_shape (ctx : Ctx) (msgs : List Message) (log : List TranscriptEntry)
    (evs : List (Except String StreamEvent))
    (h : (runRound ctx msgs log evs).fatal = none) :
    ∃ amsg calls outs,
      outs.length = calls.length ∧
      (runRound ctx msgs log evs).calls = calls ∧
      (runRound ctx msgs log evs).log
        = log ++ TranscriptEntry.message amsg ::
            (resultEntriesFor calls outs ++ calls.map TranscriptEntry.toolCall) := by
  obtain ⟨s, calls, outs, amsg, hs, hcalls, hamsg, hlen, heq⟩ :=
    runRound_fatal_none_shape ctx msgs log evs h
  exact ⟨amsg, calls, outs, hlen, by rw [heq], by rw [heq]⟩

/-- Witness for C6_transcript_shape at the concrete echo round. -/
theorem C6_transcript_shape_witness :
    (runRound cexCtx [] [] (cexRoundWithCall "echo")).fatal = none ∧
    ∃ amsg calls outs,
      outs.length = calls.length ∧
      (runRound cexCtx [] [] (cexRoundWithCall "echo")).calls = calls ∧
      (runRound cexCtx [] [] (cexRoundWithCall "echo")).log
        = [] ++ TranscriptEntry.message amsg ::
            (resultEntriesFor calls outs ++ calls.map TranscriptEntry.toolCall) :=
  ⟨rfl, C6_transcript_shape cexCtx [] [] (cexRoundWithCall "echo") rfl⟩

/-- Claim C3, counterexample: the unknown-tool run ends with a history
whose Assistant message carries the mystery ToolCall but no later Tool
message exists for it (the loop aborted fatally), refuting the claim that
in every reachable history each ToolCall has exactly one later matching
Tool message. -/
theorem C3_orphaned_call_cex : ¬ GoodHistory cexBadRun.messages := by
  intro h
  obtain ⟨h1, _⟩ := h
  have h2 := h1 [Message.user "hi"]
    (Message.assistant (some "") (some [cexMysteryCall])) [] rfl
    cexMysteryCall (List.Mem.head _)
  simp [countToolMsgs] at h2

lemma finalize_concat (parse : String → Option Json) :
    ∀ (cs : List ToolCall) (js : List String) (c : ToolCall) (j : String),
      cs.length = js.length →
      finalizeToolCalls parse (cs ++ [c]) (js ++ [j])
        = finalizeToolCalls parse cs js ++ [applyParse parse c j] := by
  intro cs
  induction cs with
  | nil =>
    intro js c j hl
    have hjs : js = [] := List.eq_nil_of_length_eq_zero hl.symm
    subst hjs
    simp [finalizeToolCalls, applyParse]
  | cons c0 cs ih =>
    intro js c j hl
    cases js with
    | nil => simp at hl
    | cons j0 js =>
      simp only [List.cons_append, finalizeToolCalls, List.append_eq]
      rw [ih js c j (by simpa using hl)]

lemma get_concat_length (pre : List String) (acc : String)
    (h : pre.length < (pre ++ [acc]).length) :
    (pre ++ [acc]).get ⟨pre.length, h⟩ = acc := by
  induction pre with
  | nil => rfl
  | cons x xs ih => exact ih _

lemma set_concat_length (pre : List String) (acc v : String) :
    (pre ++ [acc]).set pre.length v = pre ++ [v] := by
  induction pre with
  | nil => rfl
  | cons x xs ih => simp [List.set, ih]

lemma stepCalls_conts (t : Option String) (calls : List ToolCall) (pre : List String) :
    ∀ (acc : String) (rest : List String),
      stepCalls
        { accumulated_text := t, tool_calls := calls, tool_arguments_jsons := pre ++ [acc] }
        (rest.map (fun a =>
          ({ index := pre.length, id := none,
             function := { name := none, arguments := a } } : ToolCallChunk)))
      = .ok { accumulated_text := t, tool_calls := calls,
              tool_arguments_jsons := pre ++ [acc ++ concatAll rest] } := by
  intro acc rest
  induction rest generalizing acc with
  | nil => simp [stepCalls, concatAll]
  | cons a rest ih =>
    have hlt : pre.length < (pre ++ [acc]).length := by simp
    simp only [List.map_cons, stepCalls, stepToolCallChunk, hlt, dif_pos]
    rw [get_concat_length pre acc hlt, set_concat_length pre acc (acc ++ a)]
    rw [ih (acc ++ a)]
    simp [concatAll, String.append_assoc]

/-- Claim C4: reassembly correctness. For a slot whose first fragment
carries an id and a function name and whose later fragments carry only
argument text (continuations addressed at the slot position the first
fragment received), accumulating the fragmented sequence equals
accumulating the single unfragmented frame whose argument text is the
concatenation in arrival order, and finalization extends the finalized
call list with the ToolCall built from that id, that name, and the JSON
value parsed from the concatenated text (Null when unparseable). -/
theorem C4_reassembly_correct (s : AccState)
    (hlen : s.tool_calls.length = s.tool_arguments_jsons.length)
    (cid nm a0 : String) (rest : List String) (i0 : Nat)
    (parse : String → Option Json) :
    stepCalls s
        (({ index := i0, id := some cid,
            function := { name := some nm, arguments := a0 } } : ToolCallChunk)
          :: rest.map (fun a =>
            ({ index := s.tool_arguments_jsons.length, id := none,
               function := { name := none, arguments := a } } : ToolCallChunk)))
      = stepCalls s
          [({ index := i0, id := some cid,
              function := { name := some nm, arguments := a0 ++ concatAll rest } } : ToolCallChunk)] ∧
    ∃ s2,
      stepCalls s
          [({ index := i0, id := some cid,
              function := { name := some nm, arguments := a0 ++ concatAll rest } } : ToolCallChunk)]
        = .ok s2 ∧
      finalizeToolCalls parse s2.tool_calls s2.tool_arguments_jsons
        = finalizeToolCalls parse s.tool_calls s.tool_arguments_jsons
          ++ [{ id := cid, tool_type := "function",
                function := { name := nm
                            , arguments := (parse (a0 ++ concatAll rest)).getD Json.null } }] := by
  constructor
  · simp only [stepCalls, stepToolCallChunk]
    rw [stepCalls_conts]
  · refine ⟨_, rfl, ?_⟩
    simp only [stepCalls, stepToolCallChunk]
    rw [finalize_concat parse s.tool_calls s.tool_arguments_jsons _ _ hlen]
    cases hp : parse (a0 ++ concatAll rest) <;> simp [applyParse, hp]

/-- Witness for C4_reassembly_correct: slot 0 from the initial state, first
fragment with id call_1 and name echo carrying text [1, and one
continuation carrying text 2]. -/
theorem C4_reassembly_correct_witness :
    initAccState.tool_calls.length = initAccState.tool_arguments_jsons.length ∧
    (stepCalls initAccState
        (({ index := 0, id := some "call_1",
            function := { name := some "echo", arguments := "[1," } } : ToolCallChunk)
          :: (["2]"] : List String).map (fun a =>
            ({ index := initAccState.tool_arguments_jsons.length, id := none,
               function := { name := none, arguments := a } } : ToolCallChunk)))
      = stepCalls initAccState
          [({ index := 0, id := some "call_1",
              function := { name := some "echo",
                            arguments := "[1," ++ concatAll ["2]"] } } : ToolCallChunk)] ∧
    ∃ s2,
      stepCalls initAccState
          [({ index := 0, id := some "call_1",
              function := { name := some "echo",
                            arguments := "[1," ++ concatAll ["2]"] } } : ToolCallChunk)]
        = .ok s2 ∧
      finalizeToolCalls cexParse s2.tool_calls s2.tool_arguments_jsons
        = finalizeToolCalls cexParse initAccState.tool_calls initAccState.tool_arguments_jsons
          ++ [{ id := "call_1", tool_type := "function",
                function := { name := "echo"
                            , arguments := (cexParse ("[1," ++ concatAll ["2]"])).getD Json.null } }]) :=
  ⟨rfl, C4_reassembly_correct initAccState rfl "call_1" "echo" "[1," ["2]"] 0 cexParse⟩

lemma checkRequired_ok_iff (obj : List (String × Json)) :
    ∀ req : List String, checkRequired obj req = .ok () ↔ ∀ r ∈ req, hasKey obj r = true := by
  intro req
  induction req with
  | nil => simp [checkRequired]
  | cons r rs ih =>
    simp only [checkRequired]
    by_cases h : hasKey obj r
    · simp [h, ih]
    · simp [h]

lemma checkRequired_error (obj : List (String × Json)) :
    ∀ (req : List String) (e : String), checkRequired obj req = .error e →
      ∃ r ∈ req, hasKey obj r = false ∧ e = "Missing required field: " ++ r := by
  intro req
  induction req with
  | nil => intro e h; simp [checkRequired] at h
  | cons r rs ih =>
    intro e h
    simp only [checkRequired] at h
    by_cases hk : hasKey obj r
    · rw [if_pos hk] at h
      obtain ⟨r2, hr2, hk2, he2⟩ := ih e h
      exact ⟨r2, List.mem_cons_of_mem _ hr2, hk2, he2⟩
    · rw [if_neg hk] at h
      exact ⟨r, List.mem_cons_self _ _, by simp [hk], (Except.error.injEq _ _).mp h |>.symm⟩

lemma checkProps_ok_iff (rmatch : String → String → Bool) (props : List (String × Property)) :
    ∀ obj : List (String × Json),
      checkProps rmatch props obj = .ok () ↔
      ∀ kv ∈ obj, ∀ prop, findProp props kv.1 = some prop →
        ∀ p, prop.pattern = some p →
          ∃ str, kv.2.asStr = some str ∧ rmatch p str = true := by
  intro obj
  induction obj with
  | nil => simp [checkProps]
  | cons kv rest ih =>
    obtain ⟨nm, v⟩ := kv
    cases hf : findProp props nm with
    | none =>
      simp only [checkProps, hf]
      rw [ih]
      constructor
      · intro h kv2 hkv2 prop hprop p hp
        rcases List.mem_cons.mp hkv2 with rfl | hmem
        · rw [hf] at hprop; cases hprop
        · exact h kv2 hmem prop hprop p hp
      · intro h kv2 hmem prop hprop p hp
        exact h kv2 (List.mem_cons_of_mem _ hmem) prop hprop p hp
    | some prop =>
      cases hp : prop.pattern with
      | none =>
        simp only [checkProps, hf, hp]
        rw [ih]
        constructor
        · intro h kv2 hkv2 prop2 hprop2 p2 hp2
          rcases List.mem_cons.mp hkv2 with rfl | hmem
          · rw [hf] at hprop2
            cases hprop2
            rw [hp] at hp2
            cases hp2
          · exact h kv2 hmem prop2 hprop2 p2 hp2
        · intro h kv2 hmem prop2 hprop2 p2 hp2
          exact h kv2 (List.mem_cons_of_mem _ hmem) prop2 hprop2 p2 hp2
      | some p =>
        cases hv : Json.asStr v with
        | none =>
          simp only [checkProps, hf, hp, hv]
          constructor
          · intro h; exact Except.noConfusion h
          · intro h
            obtain ⟨str, hstr, _⟩ := h (nm, v) (List.mem_cons_self _ _) prop hf p hp
            rw [hv] at hstr
            exact Option.noConfusion hstr
        | some str =>
          by_cases hm : rmatch p str = true
          · simp only [checkProps, hf, hp, hv]
            rw [if_pos hm, ih]
            constructor
            · intro h kv2 hkv2 prop2 hprop2 p2 hp2
              rcases List.mem_cons.mp hkv2 with rfl | hmem
              · rw [hf] at hprop2
                cases hprop2
                rw [hp] at hp2
                cases hp2
                exact ⟨str, hv, hm⟩
              · exact h kv2 hmem prop2 hprop2 p2 hp2
            · intro h kv2 hmem prop2 hprop2 p2 hp2
              exact h kv2 (List.mem_cons_of_mem _ hmem) prop2 hprop2 p2 hp2
          · simp only [checkProps, hf, hp, hv]
            rw [if_neg hm]
            constructor
            · intro h; exact Except.noConfusion h
            · intro h
              obtain ⟨str2, hstr2, hm2⟩ := h (nm, v) (List.mem_cons_self _ _) prop hf p hp
              rw [hv] at hstr2
              cases hstr2
              exact absurd hm2 hm

lemma checkProps_error (rmatch : String → String → Bool) (props : List (String × Property)) :
    ∀ (obj : List (String × Json)) (e : String),
      checkProps rmatch props obj = .error e →
      ∃ kv ∈ obj, ∃ prop p, findProp props kv.1 = some prop ∧ prop.pattern = some p ∧
        (e = "Property " ++ kv.1 ++ " must be a string" ∨
         e = "Property " ++ kv.1 ++ " does not match pattern " ++ p) := by
  intro obj
  induction obj with
  | nil => intro e h; simp [checkProps] at h
  | cons kv rest ih =>
    obtain ⟨nm, v⟩ := kv
    intro e h
    cases hf : findProp props nm with
    | none =>
      simp only [checkProps, hf] at h
      obtain ⟨kv2, hmem, hrest⟩ := ih e h
      exact ⟨kv2, List.mem_cons_of_mem _ hmem, hrest⟩
    | some prop =>
      cases hp : prop.pattern with
      | none =>
        simp only [checkProps, hf, hp] at h
        obtain ⟨kv2, hmem, hrest⟩ := ih e h
        exact ⟨kv2, List.mem_cons_of_mem _ hmem, hrest⟩
      | some p =>
        cases hv : Json.asStr v with
        | none =>
          simp only [checkProps, hf, hp, hv] at h
          refine ⟨(nm, v), List.mem_cons_self _ _, prop, p, hf, hp, Or.inl ?_⟩
          exact ((Except.error.injEq _ _).mp h).symm
        | some str =>
          by_cases hm : rmatch p str = true
          · simp only [checkProps, hf, hp, hv] at h
            rw [if_pos hm] at h
            obtain ⟨kv2, hmem, hrest⟩ := ih e h
            exact ⟨kv2, List.mem_cons_of_mem _ hmem, hrest⟩
          · simp only [checkProps, hf, hp, hv] at h
            rw [if_neg hm] at h
            refine ⟨(nm, v), List.mem_cons_self _ _, prop, p, hf, hp, Or.inr ?_⟩
            exact ((Except.error.injEq _ _).mp h).symm

lemma validate_single (rmatch : String → String → Bool) (tool : Tool)
    (props : List (String × Property)) (req : List String)
    (hschema : tool.input_schema = [JsonSchema.object props req]) (input : Json) :
    Tool.validate_input rmatch tool input
      = validateSchema rmatch input (JsonSchema.object props req) := by
  simp only [Tool.validate_input, hschema, validateSchemas]
  cases validateSchema rmatch input (JsonSchema.object props req) with
  | ok u => cases u; rfl
  | error e => rfl

/-- Claim C8: dispatch validation. For a tool declaring one object schema,
validation succeeds exactly when the arguments are a JSON object, all
declared required properties are present, and every present property with
a declared pattern is a string the regular expression engine matches with
the pattern passed as-is (search semantics of Regex::is_match); any
violation yields an error whose text identifies the offending field
(missing field name, or field name and violated pattern), and on a
validation failure execute_tool returns that error without invoking the
command runner (the result is the same for every runner). -/
theorem C8_validation_correct (rmatch : String → String → Bool) (tool : Tool)
    (props : List (String × Property)) (req : List String)
    (hschema : tool.input_schema = [JsonSchema.object props req])
    (input : Json) (dflt : String) :
    (Tool.validate_input rmatch tool input = .ok () ↔ ValidInput rmatch props req input)
    ∧ (∀ e, Tool.validate_input rmatch tool input = .error e →
        (∀ runner, Executor.execute_tool rmatch runner tool input dflt = .error e) ∧
        (e = "Input must be an object" ∨
         (∃ r, r ∈ req ∧ hasKey (input.asObject.getD []) r = false ∧
            e = "Missing required field: " ++ r) ∨
         (∃ nm p prop, findProp props nm = some prop ∧ prop.pattern = some p ∧
            (e = "Property " ++ nm ++ " must be a string" ∨
             e = "Property " ++ nm ++ " does not match pattern " ++ p)))) := by
  have hval := validate_single rmatch tool props req hschema input
  constructor
  · rw [hval]
    cases ho : input.asObject with
    | none =>
      simp only [validateSchema, ho]
      constructor
      · intro h; exact Except.noConfusion h
      · intro h
        obtain ⟨obj, hobj, _⟩ := h
        rw [ho] at hobj
        exact Option.noConfusion hobj
    | some obj =>
      simp only [validateSchema, ho]
      cases hr : checkRequired obj req with
      | ok u =>
        cases u
        rw [checkProps_ok_iff]
        constructor
        · intro h
          exact ⟨obj, ho, (checkRequired_ok_iff obj req).mp hr, h⟩
        · intro h
          obtain ⟨obj2, hobj2, _, hprops⟩ := h
          rw [ho] at hobj2
          cases hobj2
          exact hprops
      | error e =>
        constructor
        · intro h; exact Except.noConfusion h
        · intro h
          obtain ⟨obj2, hobj2, hreq, _⟩ := h
          rw [ho] at hobj2
          cases hobj2
          obtain ⟨r, hrmem, hrkey, _⟩ := checkRequired_error obj req e hr
          rw [hreq r hrmem] at hrkey
          exact Bool.noConfusion hrkey
  · intro e he
    refine ⟨fun runner => ?_, ?_⟩
    · simp [Executor.execute_tool, Tool.build_command, he]
    · rw [hval] at he
      cases ho : input.asObject with
      | none =>
        simp only [validateSchema, ho] at he
        exact Or.inl ((Except.error.injEq _ _).mp he).symm
      | some obj =>
        simp only [validateSchema, ho] at he
        cases hr : checkRequired obj req with
        | ok u =>
          cases u
          rw [hr] at he
          obtain ⟨kv, _, prop, p, hfp, hpp, hor⟩ := checkProps_error rmatch props obj e he
          exact Or.inr (Or.inr ⟨kv.1, p, prop, hfp, hpp, hor⟩)
        | error e2 =>
          rw [hr] at he
          obtain ⟨r, hrmem, hrkey, he2⟩ := checkRequired_error obj req e2 hr
          refine Or.inr (Or.inl ⟨r, hrmem, ?_, ?_⟩)
          · exact hrkey
          · rw [← he2, ((Except.error.injEq _ _).mp he)]

/-- Witness for C8_validation_correct at the url tool with a non-matching
input. -/
theorem C8_validation_correct_witness :
    cexUrlTool.input_schema = [JsonSchema.object [("url", cexUrlProp)] ["url"]] ∧
    ((Tool.validate_input cexRmatch cexUrlTool (Json.obj [("url", Json.str "not-a-url")]) = .ok ()
        ↔ ValidInput cexRmatch [("url", cexUrlProp)] ["url"]
            (Json.obj [("url", Json.str "not-a-url")]))
     ∧ (∀ e, Tool.validate_input cexRmatch cexUrlTool
           (Json.obj [("url", Json.str "not-a-url")]) = .error e →
         (∀ runner, Executor.execute_tool cexRmatch runner cexUrlTool
             (Json.obj [("url", Json.str "not-a-url")]) "bash" = .error e) ∧
         (e = "Input must be an object" ∨
          (∃ r, r ∈ ["url"] ∧
             hasKey ((Json.obj [("url", Json.str "not-a-url")]).asObject.getD []) r = false ∧
             e = "Missing required field: " ++ r) ∨
          (∃ nm p prop, findProp [("url", cexUrlProp)] nm = some prop ∧ prop.pattern = some p ∧
             (e = "Property " ++ nm ++ " must be a string" ∨
              e = "Property " ++ nm ++ " does not match pattern " ++ p))))) :=
  ⟨rfl, C8_validation_correct cexRmatch cexUrlTool [("url", cexUrlProp)] ["url"] rfl
     (Json.obj [("url", Json.str "not-a-url")]) "bash"⟩

lemma runLoop_conv (ctx : Ctx) :
    ∀ (rounds : List (List (Except String StreamEvent))) (msgs : List Message)
      (log : List TranscriptEntry),
      (runLoop ctx rounds msgs log).fatal = none →
      ∃ tail, ConvTail tail ∧ (runLoop ctx rounds msgs log).messages = msgs ++ tail := by
  intro rounds
  induction rounds with
  | nil => intro msgs log h; simp [runLoop] at h
  | cons evs rest ih =>
    intro msgs log h
    cases hf : (runRound ctx msgs log evs).fatal with
    | some f =>
      simp only [runLoop, hf] at h
      exact Option.noConfusion h
    | none =>
      obtain ⟨s, calls, outs, amsg, hs, hcalls, hamsg, hlen, heq⟩ :=
        runRound_fatal_none_shape ctx msgs log evs hf
      have hce : (runRound ctx msgs log evs).calls = calls := by rw [heq]
      cases calls with
      | nil =>
        have hred : runLoop ctx (evs :: rest) msgs log =
            { messages := (runRound ctx msgs log evs).messages,
              log := (runRound ctx msgs log evs).log, fatal := none, roundsUsed := 1 } := by
          simp [runLoop, hf, hce]
        refine ⟨[Message.assistant s.accumulated_text none], ConvTail.last _, ?_⟩
        rw [hred, heq]
        simp [toolMsgsFor, hamsg]
      | cons c0 crest =>
        have hred : runLoop ctx (evs :: rest) msgs log =
            { messages := (runLoop ctx rest (runRound ctx msgs log evs).messages
                (runRound ctx msgs log evs).log).messages,
              log := (runLoop ctx rest (runRound ctx msgs log evs).messages
                (runRound ctx msgs log evs).log).log,
              fatal := (runLoop ctx rest (runRound ctx msgs log evs).messages
                (runRound ctx msgs log evs).log).fatal,
              roundsUsed := (runLoop ctx rest (runRound ctx msgs log evs).messages
                (runRound ctx msgs log evs).log).roundsUsed + 1 } := by
          simp [runLoop, hf, hce]
        rw [hred] at h
        obtain ⟨tail2, hct2, hmsgs2⟩ := ih _ _ h
        refine ⟨Message.assistant s.accumulated_text (some (c0 :: crest)) ::
          (toolMsgsFor (c0 :: crest) outs ++ tail2),
          ConvTail.step _ _ _ _ (by simp) hlen hct2, ?_⟩
        rw [hred, hmsgs2, heq]
        simp [hamsg]

lemma countToolMsgs_append (cid : String) (xs ys : List Message) :
    countToolMsgs cid (xs ++ ys) = countToolMsgs cid xs + countToolMsgs cid ys := by
  simp [countToolMsgs, List.filter_append]

lemma countToolMsgs_cons (cid : String) (m : Message) (l : List Message) :
    countToolMsgs cid (m :: l) = (if isToolMsgFor cid m then 1 else 0) + countToolMsgs cid l := by
  simp only [countToolMsgs, List.filter_cons]
  by_cases h : isToolMsgFor cid m
  · simp [h]
    omega
  · simp [h]

lemma countToolMsgs_toolMsgsFor (cid : String) :
    ∀ (C : List ToolCall) (outs : List String), outs.length = C.length →
      countToolMsgs cid (toolMsgsFor C outs) = (C.map (fun c => c.id)).count cid := by
  intro C
  induction C with
  | nil => intro outs _; simp [toolMsgsFor, countToolMsgs]
  | cons c C ihc =>
    intro outs hlen
    cases outs with
    | nil => simp at hlen
    | cons o os =>
      have ih2 := ihc os (by simpa using hlen)
      rw [show toolMsgsFor (c :: C) (o :: os)
          = Message.tool c.id o :: toolMsgsFor C os from rfl]
      rw [countToolMsgs_cons, List.map_cons, List.count_cons, ih2]
      simp only [isToolMsgFor, beq_iff_eq]
      by_cases hb : c.id = cid
      · rw [if_pos hb]
        omega
      · rw [if_neg hb]
        omega

lemma allCallIds_append (xs ys : List Message) :
    allCallIds (xs ++ ys) = allCallIds xs ++ allCallIds ys := by
  simp [allCallIds]

lemma toolMsgsFor_mem (C : List ToolCall) (outs : List String) (m : Message)
    (hm : m ∈ toolMsgsFor C outs) : ∃ c ∈ C, ∃ o, m = Message.tool c.id o := by
  obtain ⟨p, hp, hpe⟩ := List.mem_map.mp hm
  exact ⟨p.1, (List.of_mem_zip hp).1, p.2, hpe.symm⟩

lemma toolMsgsFor_allCallIds (C : List ToolCall) (outs : List String) :
    allCallIds (toolMsgsFor C outs) = [] := by
  simp only [allCallIds, List.flatMap_eq_nil_iff]
  intro m hm
  obtain ⟨c, _, o, rfl⟩ := toolMsgsFor_mem C outs m hm
  simp [assistantCalls]

lemma toolMsgsFor_not_assistant (C : List ToolCall) (outs : List String) (m : Message)
    (hm : m ∈ toolMsgsFor C outs) : isAssistant m = false := by
  obtain ⟨c, _, o, rfl⟩ := toolMsgsFor_mem C outs m hm
  rfl

lemma convTail_count (cid : String) :
    ∀ tail, ConvTail tail → countToolMsgs cid tail = (allCallIds tail).count cid := by
  intro tail h
  induction h with
  | last t =>
    simp [countToolMsgs, allCallIds, assistantCalls, isToolMsgFor]
  | step t C outs rest hne hlen hct ih =>
    have h1 : countToolMsgs cid (Message.assistant t (some C) :: (toolMsgsFor C outs ++ rest))
        = countToolMsgs cid (toolMsgsFor C outs) + countToolMsgs cid rest := by
      simp [countToolMsgs, List.filter_cons, isToolMsgFor, List.filter_append]
    have h2 : allCallIds (Message.assistant t (some C) :: (toolMsgsFor C outs ++ rest))
        = (C.map (fun c => c.id)) ++ allCallIds rest := by
      simp only [allCallIds, List.flatMap_cons, List.flatMap_append]
      rw [show (toolMsgsFor C outs).flatMap (fun m => (assistantCalls m).map (fun c => c.id))
          = allCallIds (toolMsgsFor C outs) from rfl]
      rw [toolMsgsFor_allCallIds]
      simp [assistantCalls, allCallIds]
    rw [h1, h2, countToolMsgs_toolMsgsFor cid C outs hlen, ih, List.count_append]

lemma lastAssistant_none : ∀ ys : List Message,
    (∀ m ∈ ys, isAssistant m = false) → lastAssistant ys = none := by
  intro ys
  induction ys with
  | nil => intro _; rfl
  | cons y ys ih =>
    intro h
    simp only [lastAssistant]
    rw [ih (fun m hm => h m (List.mem_cons_of_mem _ hm))]
    simp [h y (List.mem_cons_self _ _)]

lemma lastAssistant_append_assistant :
    ∀ (xs : List Message) (t : Option String) (cs : Option (List ToolCall))
      (ys : List Message), (∀ m ∈ ys, isAssistant m = false) →
      lastAssistant (xs ++ Message.assistant t cs :: ys) = some (Message.assistant t cs) := by
  intro xs
  induction xs with
  | nil =>
    intro t cs ys hys
    simp only [List.nil_append, lastAssistant]
    rw [lastAssistant_none ys hys]
    rfl
  | cons x xs ih =>
    intro t cs ys hys
    simp only [List.cons_append, lastAssistant, List.append_eq]
    rw [ih t cs ys hys]

lemma allCallIds_step (t : Option String) (C : List ToolCall) (outs : List String)
    (rest : List Message) :
    allCallIds (Message.assistant t (some C) :: (toolMsgsFor C outs ++ rest))
      = C.map (fun c => c.id) ++ allCallIds rest := by
  simp only [allCallIds, List.flatMap_cons, List.flatMap_append]
  rw [show (toolMsgsFor C outs).flatMap (fun m => (assistantCalls m).map (fun c => c.id))
      = allCallIds (toolMsgsFor C outs) from rfl]
  rw [toolMsgsFor_allCallIds]
  simp [assistantCalls, allCallIds]

lemma convTail_part1 :
    ∀ tail, ConvTail tail → (allCallIds tail).Nodup →
      ∀ pre m post, tail = pre ++ m :: post →
        ∀ c ∈ assistantCalls m, countToolMsgs c.id post = 1 := by
  intro tail h
  induction h with
  | last t =>
    intro hn pre m post hsplit c hc
    cases pre with
    | nil =>
      simp only [List.nil_append] at hsplit
      injection hsplit with hm hpost
      rw [← hm] at hc
      simp [assistantCalls] at hc
    | cons m0 pre2 =>
      have hl := congrArg List.length hsplit
      simp at hl
  | step t C outs rest hne hlen hct ih =>
    intro hn pre m post hsplit c hc
    have hn2 : (allCallIds rest).Nodup := by
      rw [allCallIds_step] at hn
      exact (List.nodup_append.mp hn).2.1
    cases pre with
    | nil =>
      simp only [List.nil_append] at hsplit
      injection hsplit with hm hpost
      rw [← hm] at hc
      have hcC : c ∈ C := by simpa [assistantCalls] using hc
      rw [← hpost, countToolMsgs_append, countToolMsgs_toolMsgsFor c.id C outs hlen,
        convTail_count c.id rest hct]
      rw [allCallIds_step] at hn
      obtain ⟨hn1, _, hdisj⟩ := List.nodup_append.mp hn
      have hmem : c.id ∈ C.map (fun c => c.id) := List.mem_map_of_mem _ hcC
      have h1 : (C.map (fun c => c.id)).count c.id = 1 := List.count_eq_one_of_mem hn1 hmem
      have h0 : (allCallIds rest).count c.id = 0 :=
        List.count_eq_zero_of_not_mem (fun hx => hdisj hmem hx)
      omega
    | cons m0 pre2 =>
      injection hsplit with hm0 h2
      rcases List.append_eq_append_iff.mp h2 with ⟨a2, ha2, hb2⟩ | ⟨c2, hc2, hd2⟩
      · exact ih hn2 a2 m post hb2 c hc
      · cases c2 with
        | nil =>
          simp only [List.nil_append] at hd2
          exact ih hn2 [] m post (by simpa using hd2.symm) c hc
        | cons m1 c2t =>
          injection hd2 with hm1 hpost2
          have hmem : m1 ∈ toolMsgsFor C outs := by
            rw [hc2]
            exact List.mem_append.mpr (Or.inr (List.mem_cons_self _ _))
          obtain ⟨cc, _, o, hco⟩ := toolMsgsFor_mem C outs m1 hmem
          rw [hm1, hco] at hc
          simp [assistantCalls] at hc

lemma convTail_part2 :
    ∀ tail, ConvTail tail →
      ∀ pre m post, tail = pre ++ m :: post →
        ∀ cid ct, m = Message.tool cid ct →
          ∀ stub, cid ∈ lastAssistantCallIds (stub ++ pre) := by
  intro tail h
  induction h with
  | last t =>
    intro pre m post hsplit cid ct hm stub
    cases pre with
    | nil =>
      simp only [List.nil_append] at hsplit
      injection hsplit with h1 _
      rw [hm] at h1
      exact Message.noConfusion h1
    | cons m0 pre2 =>
      have hl := congrArg List.length hsplit
      simp at hl
  | step t C outs rest hne hlen hct ih =>
    intro pre m post hsplit cid ct hm stub
    cases pre with
    | nil =>
      simp only [List.nil_append] at hsplit
      injection hsplit with h1 _
      rw [hm] at h1
      exact Message.noConfusion h1
    | cons m0 pre2 =>
      injection hsplit with hm0 h2
      rcases List.append_eq_append_iff.mp h2 with ⟨a2, ha2, hb2⟩ | ⟨c2, hc2, hd2⟩
      · have := ih a2 m post hb2 cid ct hm (stub ++ m0 :: toolMsgsFor C outs)
        rw [ha2]
        simpa using this
      · cases c2 with
        | nil =>
          simp only [List.nil_append] at hd2
          have := ih [] m post (by simpa using hd2.symm) cid ct hm (stub ++ m0 :: pre2)
          simpa using this
        | cons m1 c2t =>
          injection hd2 with hm1 hpost2
          have hmem1 : m1 ∈ toolMsgsFor C outs := by
            rw [hc2]
            exact List.mem_append.mpr (Or.inr (List.mem_cons_self _ _))
          obtain ⟨cc, hccC, o, hco⟩ := toolMsgsFor_mem C outs m1 hmem1
          have hcid : cid = cc.id := by
            rw [hm] at hm1
            rw [hco] at hm1
            injection hm1.symm with h3 _
            exact h3.symm
          have hpre2 : ∀ x ∈ pre2, isAssistant x = false := by
            intro x hx
            refine toolMsgsFor_not_assistant C outs x ?_
            rw [hc2]
            exact List.mem_append.mpr (Or.inl hx)
          rw [← hm0]
          have hlaa := lastAssistant_append_assistant stub t (some C) pre2 hpre2
          rw [show stub ++ Message.assistant t (some C) :: pre2
              = stub ++ (Message.assistant t (some C) :: pre2) from rfl] at hlaa
          simp only [lastAssistantCallIds, hlaa]
          rw [hcid]
          exact List.mem_map_of_mem _ (by simpa [assistantCalls] using hccC)

/-- Claim C3, amended: in the final history of every run that completes
with no fatal error (in particular, every finalized call found its tool in
the registry) and in which the tool call identifiers carried by Assistant
messages are pairwise distinct, every ToolCall of an Assistant message has
exactly one later Tool message with matching tool_call_id regardless of
dispatch success or failure, and every Tool message references a ToolCall
of the most recent preceding Assistant message. -/
theorem C3_history_invariant (ctx : Ctx) (prompt : String)
    (rounds : List (List (Except String StreamEvent)))
    (hfat : (runMain ctx prompt rounds).fatal = none)
    (hnodup : (allCallIds (runMain ctx prompt rounds).messages).Nodup) :
    GoodHistory (runMain ctx prompt rounds).messages := by
  obtain ⟨tail, hct, hmsgs⟩ := runLoop_conv ctx rounds
    [Message.user prompt] [TranscriptEntry.message (Message.user prompt)] hfat
  have hmsgs2 : (runMain ctx prompt rounds).messages = Message.user prompt :: tail := by
    rw [show runMain ctx prompt rounds = runLoop ctx rounds [Message.user prompt]
        [TranscriptEntry.message (Message.user prompt)] from rfl, hmsgs]
    rfl
  rw [hmsgs2] at hnodup ⊢
  have hnd : (allCallIds tail).Nodup := by
    simpa [allCallIds, assistantCalls] using hnodup
  constructor
  · intro pre m post hsplit c hc
    cases pre with
    | nil =>
      simp only [List.nil_append] at hsplit
      injection hsplit with h1 _
      rw [← h1] at hc
      simp [assistantCalls] at hc
    | cons m0 pre2 =>
      injection hsplit with _ h2
      exact convTail_part1 tail hct hnd pre2 m post h2 c hc
  · intro pre m post hsplit cid ct hm
    cases pre with
    | nil =>
      simp only [List.nil_append] at hsplit
      injection hsplit with h1 _
      rw [hm] at h1
      exact Message.noConfusion h1
    | cons m0 pre2 =>
      injection hsplit with _ h2
      have := convTail_part2 tail hct pre2 m post h2 cid ct hm [m0]
      simpa using this

/-- Witness for C3_history_invariant at the concrete two-round run. -/
theorem C3_history_invariant_witness :
    ((runMain cexCtx "hi" [cexRoundWithCall "echo", cexEmptyRound]).fatal = none ∧
     (allCallIds (runMain cexCtx "hi" [cexRoundWithCall "echo", cexEmptyRound]).messages).Nodup) ∧
    GoodHistory (runMain cexCtx "hi" [cexRoundWithCall "echo", cexEmptyRound]).messages :=
  ⟨⟨rfl, by decide⟩,
   C3_history_invariant cexCtx "hi" [cexRoundWithCall "echo", cexEmptyRound] rfl (by decide)⟩
